import Mathlib

/-!
Verification of the streaming decision pipeline of the Smart_Glasses
ISL-recognition repository: landmark normalization (`src/utils.py`,
`normalize_landmarks`), the stability window, the cooldown announcement
gate and the per-frame orchestration (inline in the frame loops of
`src/inference.py` lines 156-201 and `src/deploy_pi.py` lines 249-287,
which are byte-for-byte the same decision logic).

Floats of the Python source (landmark coordinates, confidences,
timestamps) are embedded as rationals; labels as strings.
-/

namespace SmartGlasses

/-! ## Landmark normalizer, from `src/utils.py` `normalize_landmarks` -/

/-- The inner loop of `normalize_landmarks`:
`for i in range(start_idx, end_idx, 3): landmarks[i] -= wrist_x;
landmarks[i+1] -= wrist_y; landmarks[i+2] -= wrist_z`.
The wrist coordinates are read into `wrist_x/y/z` before the loop runs,
so the subtraction always uses the original wrist values. A trailing
partial triple (impossible for the 63-element hand slices of the source)
is left untouched. -/
def subTriples (wrist_x wrist_y wrist_z : ℚ) : List ℚ → List ℚ
  | x :: y :: z :: rest =>
      (x - wrist_x) :: (y - wrist_y) :: (z - wrist_z) ::
        subTriples wrist_x wrist_y wrist_z rest
  | l => l

/-- One iteration of the `for hand_idx in range(2)` loop of
`normalize_landmarks`, acting on the 63-element slice
`landmarks[start_idx:end_idx]`: if `np.any(...)` holds (some element is
non-zero), subtract the first landmark's `(x, y, z)` from every landmark
triple of the slice; otherwise leave the slice unchanged. A non-zero
slice shorter than 3 (where CPython would raise `IndexError` reading the
wrist) is left unchanged; it never arises for the slice lengths used
here (63, 63 and, on short input, 63 and 0). -/
def normalize_hand (slice : List ℚ) : List ℚ :=
  if slice.any (fun a => decide (a ≠ 0)) then
    match slice with
    | wrist_x :: wrist_y :: wrist_z :: _ =>
        subTriples wrist_x wrist_y wrist_z slice
    | _ => slice
  else slice

/-- `normalize_landmarks` of `src/utils.py` (lines 53-83): copy the
input (the embedding is pure, so the copy is implicit), then normalize
the slice `[0:63]` and the slice `[63:126]` each relative to its own
wrist; elements beyond index 126, if any, are untouched. NumPy slicing
clamps at the array length, which `take`/`drop` also do. -/
def normalize_landmarks (landmarks : List ℚ) : List ℚ :=
  normalize_hand (landmarks.take 63) ++
    normalize_hand ((landmarks.drop 63).take 63) ++
      landmarks.drop 126

/-! ## Stability tracker, from the frame loop of `src/inference.py`
(lines 170-179) = `src/deploy_pi.py` (lines 262-270) -/

/-- One observation of the stability buffer. `some predicted_sign` is
the confident-prediction path: `stability_buffer.append(predicted_sign)`;
`if len(stability_buffer) > stability_frames: stability_buffer.pop(0)`;
stable iff `len(stability_buffer) == stability_frames and
all(s == predicted_sign for s in stability_buffer)`.
`none` is the no-hand / low-confidence path: `stability_buffer.clear()`,
never stable. -/
def observe (stability_frames : ℕ) (buf : List String) :
    Option String → List String × Bool
  | none => ([], false)
  | some predicted_sign =>
      let buf1 := buf ++ [predicted_sign]
      let buf2 := if stability_frames < buf1.length then buf1.tail else buf1
      (buf2,
        decide (buf2.length = stability_frames ∧
          ∀ s ∈ buf2, s = predicted_sign))

/-- Feeding the same label `k` times into an initially empty stability
buffer with capacity `stability_frames`. -/
def iterate_observe (stability_frames : ℕ) (lab : String) :
    ℕ → List String × Bool
  | 0 => ([], false)
  | k + 1 =>
      observe stability_frames (iterate_observe stability_frames lab k).1
        (some lab)

/-- Folding a whole sequence of per-frame observations over the
stability buffer, starting from a given buffer. -/
def runObserve (stability_frames : ℕ) (buf : List String) :
    List (Option String) → List String
  | [] => buf
  | inp :: rest =>
      runObserve stability_frames (observe stability_frames buf inp).1 rest

/-! ## Announcement gate, from `src/inference.py` (lines 181-195) =
`src/deploy_pi.py` (lines 272-283) -/

/-- The announcement state: `last_announced_sign` (initially `None`) and
`last_announcement_time` (initially `0`), from `src/inference.py`
lines 123-124. -/
structure AnnouncementState where
  last_announced_sign : Option String
  last_announcement_time : ℚ
  deriving DecidableEq, Repr

/-- The cooldown check of the frame loop:
`if predicted_sign != last_announced_sign or
(current_time - last_announcement_time) > cooldown_seconds`, which on a
hit sets `last_announced_sign = predicted_sign;
last_announcement_time = current_time` and reports `True` (the caller
then announces), and otherwise leaves the state unchanged and reports
`False`. -/
def should_announce (cooldown_seconds : ℚ) (predicted_sign : String)
    (now : ℚ) (st : AnnouncementState) : Bool × AnnouncementState :=
  if some predicted_sign ≠ st.last_announced_sign ∨
      cooldown_seconds < now - st.last_announcement_time then
    (true, ⟨some predicted_sign, now⟩)
  else
    (false, st)

/-! ## Per-frame orchestration, from `src/inference.py` lines 156-201 -/

/-- The process-lifetime state of the frame loop: `stability_buffer`,
`last_announced_sign`, `last_announcement_time`
(`src/inference.py` lines 122-124). -/
structure PipelineState where
  stability_buffer : List String
  last_announced_sign : Option String
  last_announcement_time : ℚ
  deriving DecidableEq, Repr

/-- The initial state of the frame loop: empty buffer, no last sign,
last announcement time `0`. -/
def initialState : PipelineState := ⟨[], none, 0⟩

/-- One iteration of the frame loop's decision logic
(`src/inference.py` lines 156-201). The external detector+classifier is
abstracted into the input `pred`: `none` when no hands are detected
(`landmarks is None`), `some (label, confidence)` for the arg-max
prediction otherwise. Returns the updated state and the emitted
announcement (`tts.speak`), if any, carrying `(label, confidence)`:
* no hands: `stability_buffer.clear()`, no announcement;
* `confidence >= confidence_threshold`: observe the label; if the buffer
  is stable, run the cooldown check; on a hit announce, record the sign
  and time, and `stability_buffer.clear()`;
* low confidence: `stability_buffer.clear()`, no announcement. -/
def processFrame (confidence_threshold : ℚ) (stability_frames : ℕ)
    (cooldown_seconds : ℚ) (st : PipelineState)
    (pred : Option (String × ℚ)) (now : ℚ) :
    PipelineState × Option (String × ℚ) :=
  match pred with
  | none =>
      ({ st with stability_buffer :=
          (observe stability_frames st.stability_buffer none).1 }, none)
  | some (predicted_sign, confidence) =>
      if confidence_threshold ≤ confidence then
        let r := observe stability_frames st.stability_buffer
          (some predicted_sign)
        if r.2 then
          let g := should_announce cooldown_seconds predicted_sign now
            ⟨st.last_announced_sign, st.last_announcement_time⟩
          if g.1 then
            ({ stability_buffer := [],
               last_announced_sign := g.2.last_announced_sign,
               last_announcement_time := g.2.last_announcement_time },
              some (predicted_sign, confidence))
          else
            ({ st with stability_buffer := r.1 }, none)
        else
          ({ st with stability_buffer := r.1 }, none)
      else
        ({ st with stability_buffer :=
            (observe stability_frames st.stability_buffer none).1 }, none)

/-- Running the frame loop over a list of frames, each a prediction
(`none` = no hands) paired with its `time.time()` timestamp; collects
the announcement events as `(label, confidence, timestamp)` triples. -/
def runPipeline (confidence_threshold : ℚ) (stability_frames : ℕ)
    (cooldown_seconds : ℚ) (st : PipelineState) :
    List (Option (String × ℚ) × ℚ) →
      PipelineState × List (String × ℚ × ℚ)
  | [] => (st, [])
  | (pred, now) :: rest =>
      let r := processFrame confidence_threshold stability_frames
        cooldown_seconds st pred now
      let rec' := runPipeline confidence_threshold stability_frames
        cooldown_seconds r.1 rest
      (rec'.1,
        (match r.2 with
          | some (lab, conf) => [(lab, conf, now)]
          | none => []) ++ rec'.2)

/-! ## Concrete inputs used to instantiate the theorems -/

/-- The 63-element slice of hand `hand` (`hand = 0` or `1`) of a
landmark vector, i.e. `landmarks[start_idx:end_idx]` with
`start_idx = hand * 63`. -/
def handSlice (landmarks : List ℚ) (hand : ℕ) : List ℚ :=
  (landmarks.drop (63 * hand)).take 63

/-- A length-126 vector: hand 0 present with all coordinates `1`,
hand 1 absent (all-zero). -/
def sampleInput : List ℚ := List.replicate 63 1 ++ List.replicate 63 0

/-- A length-126 vector whose first hand is present (non-zero) but
degenerate: all 21 landmarks coincide with the wrist `(1, 0, 0)`, so
wrist-relative normalization maps the whole slice to zero. -/
def degenerateHand : List ℚ :=
  (List.replicate 21 ([1, 0, 0] : List ℚ)).flatten ++ List.replicate 63 0

/-- A length-126 vector whose first hand is present and has a landmark
that differs from the wrist: wrist `(1, 2, 3)`, all other landmarks
zero. -/
def genericHand : List ℚ :=
  ([1, 2, 3] : List ℚ) ++ List.replicate 60 0 ++ List.replicate 63 0

/-- A malformed, length-63 landmark vector (only one hand's worth of
coordinates), used to exercise the missing length validation. -/
def wrongLengthInput : List ℚ := List.replicate 63 1

/-- The frame sequence of the end-to-end scenario: three confident
`"Hello"` frames at `t = 0, 0.1, 0.2`, three more at `t = 0.3, 0.4,
0.5`, a no-hand frame at `t = 0.6`, then a fresh stable run completing
at `t = 2.3`. -/
def scenarioFrames : List (Option (String × ℚ) × ℚ) :=
  [(some ("Hello", 9/10), 0), (some ("Hello", 9/10), 1/10),
   (some ("Hello", 9/10), 2/10), (some ("Hello", 9/10), 3/10),
   (some ("Hello", 9/10), 4/10), (some ("Hello", 9/10), 5/10),
   (none, 6/10),
   (some ("Hello", 9/10), 21/10), (some ("Hello", 9/10), 22/10),
   (some ("Hello", 9/10), 23/10)]

/-! ## Helper lemmas: the inner subtraction loop -/

theorem subTriples_cons3 (wx wy wz x y z : ℚ) (rest : List ℚ) :
    subTriples wx wy wz (x :: y :: z :: rest) =
      (x - wx) :: (y - wy) :: (z - wz) :: subTriples wx wy wz rest := rfl

theorem subTriples_length (wx wy wz : ℚ) : ∀ l : List ℚ,
    (subTriples wx wy wz l).length = l.length
  | [] => rfl
  | [_] => rfl
  | [_, _] => rfl
  | x :: y :: z :: rest => by
      rw [subTriples_cons3]
      simp [subTriples_length wx wy wz rest]

theorem subTriples_zero : ∀ l : List ℚ, subTriples 0 0 0 l = l
  | [] => rfl
  | [_] => rfl
  | [_, _] => rfl
  | x :: y :: z :: rest => by
      rw [subTriples_cons3, subTriples_zero rest, sub_zero, sub_zero, sub_zero]

theorem subTriples_getElem (wx wy wz : ℚ) : ∀ l : List ℚ, l.length % 3 = 0 →
    ∀ j : ℕ, (subTriples wx wy wz l)[j]? =
      (l[j]?).map (fun a =>
        a - (if j % 3 = 0 then wx else if j % 3 = 1 then wy else wz))
  | [], _, j => by simp [subTriples]
  | [_], h, _ => by simp at h
  | [_, _], h, _ => by simp at h
  | x :: y :: z :: rest, h, j => by
      have hr : rest.length % 3 = 0 := by
        simp only [List.length_cons] at h
        omega
      rw [subTriples_cons3]
      match j with
      | 0 => simp
      | 1 => simp
      | 2 => simp
      | n + 3 =>
        have ih := subTriples_getElem wx wy wz rest hr n
        simpa [Nat.add_mod_right] using ih

/-! ## Helper lemmas: one hand slice -/

theorem normalize_hand_length (s : List ℚ) :
    (normalize_hand s).length = s.length := by
  unfold normalize_hand
  split
  · split
    · rw [subTriples_length]
    · rfl
  · rfl

theorem normalize_hand_of_all_zero (s : List ℚ) (h : ∀ a ∈ s, a = 0) :
    normalize_hand s = s := by
  unfold normalize_hand
  rw [if_neg]
  simp only [List.any_eq_true, decide_eq_true_eq, not_exists, not_and, not_not]
  intro a ha
  exact h a ha

theorem normalize_hand_of_not_all_zero (x y z : ℚ) (rest : List ℚ)
    (h : ¬ ∀ a ∈ (x :: y :: z :: rest), a = 0) :
    normalize_hand (x :: y :: z :: rest) =
      subTriples x y z (x :: y :: z :: rest) := by
  unfold normalize_hand
  rw [if_pos]
  push_neg at h
  obtain ⟨a, ha, hne⟩ := h
  simp only [List.any_eq_true, decide_eq_true_eq]
  exact ⟨a, ha, hne⟩

theorem normalize_hand_getElem (s : List ℚ) (hlen : s.length = 63)
    (h : ¬ ∀ a ∈ s, a = 0) (j : ℕ) :
    (normalize_hand s)[j]? =
      Option.map₂ (fun a w => a - w) (s[j]?) (s[j % 3]?) := by
  obtain ⟨x, y, z, rest, rfl⟩ : ∃ x y z rest, s = x :: y :: z :: rest := by
    match s, hlen with
    | x :: y :: z :: rest, _ => exact ⟨x, y, z, rest, rfl⟩
  rw [normalize_hand_of_not_all_zero x y z rest h]
  have h3 : (x :: y :: z :: rest).length % 3 = 0 := by rw [hlen]
  rw [subTriples_getElem x y z _ h3 j]
  have hj3 : j % 3 = 0 ∨ j % 3 = 1 ∨ j % 3 = 2 := by omega
  rcases hj3 with h0 | h1 | h2
  · rw [h0]
    simp only [if_pos rfl]
    cases (x :: y :: z :: rest)[j]? <;> simp
  · rw [h1]
    cases (x :: y :: z :: rest)[j]? <;> simp
  · rw [h2]
    cases (x :: y :: z :: rest)[j]? <;> simp

/-! ## Helper lemmas: slice decomposition at length 126 -/

theorem normalize_landmarks_eq_of_length (v : List ℚ) (hv : v.length = 126) :
    normalize_landmarks v =
      normalize_hand (v.take 63) ++ normalize_hand (v.drop 63) := by
  unfold normalize_landmarks
  have h1 : (v.drop 63).take 63 = v.drop 63 := by
    apply List.take_of_length_le
    simp [hv]
  have h2 : v.drop 126 = [] := by
    apply List.drop_eq_nil_of_le
    omega
  rw [h1, h2, List.append_nil]

theorem handSlice_zero (v : List ℚ) (hv : v.length = 126) :
    handSlice v 0 = v.take 63 := by
  unfold handSlice
  simp

theorem handSlice_one (v : List ℚ) (hv : v.length = 126) :
    handSlice v 1 = v.drop 63 := by
  unfold handSlice
  rw [show (63 : ℕ) * 1 = 63 by norm_num]
  exact List.take_of_length_le (by simp [hv])

theorem normalize_landmarks_length (v : List ℚ) (hv : v.length = 126) :
    (normalize_landmarks v).length = 126 := by
  rw [normalize_landmarks_eq_of_length v hv]
  simp [normalize_hand_length, hv]

theorem handSlice_normalize_zero (v : List ℚ) (hv : v.length = 126) :
    handSlice (normalize_landmarks v) 0 = normalize_hand (v.take 63) := by
  rw [handSlice_zero _ (normalize_landmarks_length v hv),
    normalize_landmarks_eq_of_length v hv]
  rw [List.take_append_of_le_length]
  · apply List.take_of_length_le
    rw [normalize_hand_length]
    simp [hv]
  · rw [normalize_hand_length]
    simp [hv]

theorem handSlice_normalize_one (v : List ℚ) (hv : v.length = 126) :
    handSlice (normalize_landmarks v) 1 = normalize_hand (v.drop 63) := by
  rw [handSlice_one _ (normalize_landmarks_length v hv),
    normalize_landmarks_eq_of_length v hv]
  have h63 : (normalize_hand (v.take 63)).length = 63 := by
    rw [normalize_hand_length]
    simp [hv]
  rw [List.drop_append_of_le_length (by omega),
    List.drop_eq_nil_of_le (by omega), List.nil_append]

theorem handSlice_length (v : List ℚ) (hv : v.length = 126) (hand : Fin 2) :
    (handSlice v hand.val).length = 63 := by
  rcases hand with ⟨h, hh⟩
  interval_cases h
  · rw [handSlice_zero v hv]
    simp [hv]
  · rw [handSlice_one v hv]
    simp [hv]

theorem handSlice_normalize (v : List ℚ) (hv : v.length = 126)
    (hand : Fin 2) :
    handSlice (normalize_landmarks v) hand.val =
      normalize_hand (handSlice v hand.val) := by
  rcases hand with ⟨h, hh⟩
  interval_cases h
  · rw [handSlice_normalize_zero v hv, handSlice_zero v hv]
  · rw [handSlice_normalize_one v hv, handSlice_one v hv]

theorem normalize_hand_idem (s : List ℚ) :
    normalize_hand (normalize_hand s) = normalize_hand s := by
  by_cases h : ∀ a ∈ s, a = 0
  · rw [normalize_hand_of_all_zero s h, normalize_hand_of_all_zero s h]
  · rcases s with _ | ⟨x, _ | ⟨y, _ | ⟨z, rest⟩⟩⟩
    · exact absurd (by simp) h
    · have h1 : normalize_hand [x] = [x] := by
        unfold normalize_hand
        split <;> rfl
      rw [h1, h1]
    · have h1 : normalize_hand [x, y] = [x, y] := by
        unfold normalize_hand
        split <;> rfl
      rw [h1, h1]
    · rw [normalize_hand_of_not_all_zero x y z rest h]
      rw [subTriples_cons3, sub_self, sub_self, sub_self]
      by_cases h2 : ∀ a ∈ (0 :: 0 :: 0 :: subTriples x y z rest : List ℚ),
          a = 0
      · rw [normalize_hand_of_all_zero _ h2]
      · rw [normalize_hand_of_not_all_zero _ _ _ _ h2, subTriples_zero]

/-- C3. Landmark normalization: on every length-126 vector the result
again has length 126; a hand slice containing a non-zero element has
the slice's wrist triple subtracted from every landmark triple (entry
`j` of the output slice is entry `j` of the input slice minus entry
`j % 3`, the corresponding wrist coordinate), so its wrist triple
becomes `(0, 0, 0)`; an all-zero slice is returned unchanged. The
embedding is a total pure function (the source operates on
`landmarks.copy()`), so normalization always succeeds and leaves its
input unmodified. -/
theorem normalizer_wrist_relative (v : List ℚ) (hv : v.length = 126)
    (hand : Fin 2) :
    (normalize_landmarks v).length = 126 ∧
    (¬ (∀ a ∈ handSlice v hand.val, a = 0) →
      (∀ j : ℕ, j < 63 →
        (handSlice (normalize_landmarks v) hand.val)[j]? =
          Option.map₂ (fun a w => a - w) ((handSlice v hand.val)[j]?)
            ((handSlice v hand.val)[j % 3]?)) ∧
      (handSlice (normalize_landmarks v) hand.val)[0]? = some 0 ∧
      (handSlice (normalize_landmarks v) hand.val)[1]? = some 0 ∧
      (handSlice (normalize_landmarks v) hand.val)[2]? = some 0) ∧
    ((∀ a ∈ handSlice v hand.val, a = 0) →
      handSlice (normalize_landmarks v) hand.val = handSlice v hand.val)
    := by
  have hlen := handSlice_length v hv hand
  refine ⟨normalize_landmarks_length v hv, ?_, ?_⟩
  · intro h
    have hget : ∀ j : ℕ, j < 63 →
        (handSlice (normalize_landmarks v) hand.val)[j]? =
          Option.map₂ (fun a w => a - w) ((handSlice v hand.val)[j]?)
            ((handSlice v hand.val)[j % 3]?) := by
      intro j hj
      rw [handSlice_normalize v hv hand]
      exact normalize_hand_getElem _ hlen h j
    refine ⟨hget, ?_, ?_, ?_⟩
    · obtain ⟨x, hx⟩ : ∃ x, (handSlice v hand.val)[0]? = some x := by
        rw [List.getElem?_eq_getElem (by omega)]
        exact ⟨_, rfl⟩
      rw [hget 0 (by norm_num)]
      norm_num [hx]
    · obtain ⟨x, hx⟩ : ∃ x, (handSlice v hand.val)[1]? = some x := by
        rw [List.getElem?_eq_getElem (by omega)]
        exact ⟨_, rfl⟩
      rw [hget 1 (by norm_num)]
      norm_num [hx]
    · obtain ⟨x, hx⟩ : ∃ x, (handSlice v hand.val)[2]? = some x := by
        rw [List.getElem?_eq_getElem (by omega)]
        exact ⟨_, rfl⟩
      rw [hget 2 (by norm_num)]
      norm_num [hx]
  · intro h
    rw [handSlice_normalize v hv hand, normalize_hand_of_all_zero _ h]

/-- C3 witness: the theorem instantiated at `sampleInput` and hand 0. -/
theorem normalizer_wrist_relative_witness :
    sampleInput.length = 126 ∧ (normalize_landmarks sampleInput).length = 126
    := ⟨by norm_num [sampleInput],
      (normalizer_wrist_relative sampleInput (by norm_num [sampleInput])
        0).1⟩

/-- C8 counterexample: the claim "after normalization the slice of any
present hand is never all-zero" is false. In `degenerateHand` the first
hand is present (its input slice is not all-zero), yet after
normalization its whole slice is zero, because every landmark coincides
with the wrist. -/
theorem present_hand_nonzero_cex :
    degenerateHand.length = 126 ∧
    (¬ ∀ a ∈ handSlice degenerateHand 0, a = 0) ∧
    (∀ a ∈ handSlice (normalize_landmarks degenerateHand) 0, a = 0) := by
  refine ⟨by norm_num [degenerateHand, List.replicate], ?_, ?_⟩
  · intro hall
    have h1 : (1 : ℚ) ∈ handSlice degenerateHand 0 := by
      norm_num [degenerateHand, handSlice, List.replicate]
    exact one_ne_zero (hall 1 h1)
  · norm_num [degenerateHand, handSlice, normalize_landmarks,
      normalize_hand, subTriples, List.replicate]

/-- C8 amended: for every length-126 input, an absent hand (all-zero
slice) stays all-zero, and the slice of a present hand is non-zero
after normalization provided some landmark coordinate of the slice
differs from the corresponding wrist coordinate (entry `j` differs from
entry `j % 3`). The unamended claim fails exactly on present hands all
of whose landmarks coincide with the wrist, which normalization maps to
the all-zero slice. -/
theorem present_hand_nonzero_amended (v : List ℚ) (hv : v.length = 126)
    (hand : Fin 2) :
    ((∀ a ∈ handSlice v hand.val, a = 0) →
      ∀ a ∈ handSlice (normalize_landmarks v) hand.val, a = 0) ∧
    (∀ j : ℕ, j < 63 →
      (handSlice v hand.val)[j]? ≠ (handSlice v hand.val)[j % 3]? →
      ¬ ∀ a ∈ handSlice (normalize_landmarks v) hand.val, a = 0) := by
  have hlen := handSlice_length v hv hand
  constructor
  · intro h
    rw [handSlice_normalize v hv hand, normalize_hand_of_all_zero _ h]
    exact h
  · intro j hj hdiff
    have hnz : ¬ ∀ a ∈ handSlice v hand.val, a = 0 := by
      intro hall
      apply hdiff
      obtain ⟨x, hx⟩ : ∃ x, (handSlice v hand.val)[j]? = some x := by
        rw [List.getElem?_eq_getElem (by omega)]
        exact ⟨_, rfl⟩
      obtain ⟨w, hw⟩ : ∃ w, (handSlice v hand.val)[j % 3]? = some w := by
        rw [List.getElem?_eq_getElem (by omega)]
        exact ⟨_, rfl⟩
      have hxz : x = 0 := hall x (List.getElem?_mem hx)
      have hwz : w = 0 := hall w (List.getElem?_mem hw)
      rw [hx, hw, hxz, hwz]
    intro hall
    obtain ⟨x, hx⟩ : ∃ x, (handSlice v hand.val)[j]? = some x := by
      rw [List.getElem?_eq_getElem (by omega)]
      exact ⟨_, rfl⟩
    obtain ⟨w, hw⟩ : ∃ w, (handSlice v hand.val)[j % 3]? = some w := by
      rw [List.getElem?_eq_getElem (by omega)]
      exact ⟨_, rfl⟩
    have hout : (handSlice (normalize_landmarks v) hand.val)[j]? =
        some (x - w) := by
      rw [handSlice_normalize v hv hand,
        normalize_hand_getElem _ hlen hnz j, hx, hw]
      rfl
    have hmem : (x - w) ∈ handSlice (normalize_landmarks v) hand.val :=
      List.getElem?_mem hout
    have : x - w = 0 := hall _ hmem
    have hxw : x = w := by linarith
    rw [hx, hw, hxw] at hdiff
    exact hdiff rfl

/-- C8 amended witness: in `genericHand` the first hand is present and
landmark coordinate 3 differs from the wrist coordinate 0, so the
normalized slice is not all-zero. -/
theorem present_hand_nonzero_amended_witness :
    (genericHand.length = 126 ∧ (3 : ℕ) < 63 ∧
      (handSlice genericHand 0)[3]? ≠ (handSlice genericHand 0)[3 % 3]?) ∧
    ¬ ∀ a ∈ handSlice (normalize_landmarks genericHand) 0, a = 0 := by
  have h126 : genericHand.length = 126 := by
    norm_num [genericHand, List.replicate]
  have hdiff : (handSlice genericHand 0)[3]? ≠
      (handSlice genericHand 0)[3 % 3]? := by
    norm_num [genericHand, handSlice, List.replicate]
  exact ⟨⟨h126, by norm_num, hdiff⟩,
    (present_hand_nonzero_amended genericHand h126 0).2 3 (by norm_num)
      hdiff⟩

/-- C9: the code does not fail fast on malformed input. `normalize_landmarks`
applied to a length-63 vector (one hand's worth of data) silently
normalizes it as if it were well-formed and returns a length-63 result,
instead of rejecting the wrong-length vector. -/
theorem missing_length_validation :
    wrongLengthInput.length ≠ 126 ∧
    normalize_landmarks wrongLengthInput = List.replicate 63 0 := by
  constructor
  · norm_num [wrongLengthInput, List.replicate]
  · norm_num [wrongLengthInput, normalize_landmarks, normalize_hand,
      subTriples, List.replicate]

/-- C10: normalization is idempotent on length-126 vectors: a second
pass subtracts the already-zeroed wrist (or leaves an all-zero slice
untouched), changing nothing. -/
theorem normalization_idempotent (v : List ℚ) (hv : v.length = 126) :
    normalize_landmarks (normalize_landmarks v) = normalize_landmarks v
    := by
  have hlen : (normalize_landmarks v).length = 126 :=
    normalize_landmarks_length v hv
  rw [normalize_landmarks_eq_of_length _ hlen,
    normalize_landmarks_eq_of_length v hv]
  have hA : (normalize_hand (v.take 63) ++
      normalize_hand (v.drop 63)).take 63 = normalize_hand (v.take 63) := by
    rw [List.take_append_of_le_length
      (by rw [normalize_hand_length]; simp [hv])]
    rw [List.take_of_length_le (by rw [normalize_hand_length]; simp [hv])]
  have hB : (normalize_hand (v.take 63) ++
      normalize_hand (v.drop 63)).drop 63 = normalize_hand (v.drop 63) := by
    rw [List.drop_append_of_le_length
      (by rw [normalize_hand_length]; simp [hv])]
    rw [List.drop_eq_nil_of_le (by rw [normalize_hand_length]; simp [hv]),
      List.nil_append]
  rw [hA, hB, normalize_hand_idem, normalize_hand_idem]

/-- C10 witness: idempotence at `sampleInput`. -/
theorem normalization_idempotent_witness :
    sampleInput.length = 126 ∧
    normalize_landmarks (normalize_landmarks sampleInput) =
      normalize_landmarks sampleInput :=
  ⟨by norm_num [sampleInput, List.replicate],
    normalization_idempotent sampleInput
      (by norm_num [sampleInput, List.replicate])⟩

/-! ## Helper lemmas: the stability tracker -/

theorem observe_some_fst (N : ℕ) (buf : List String) (lab : String) :
    (observe N buf (some lab)).1 =
      if N < buf.length + 1 then (buf ++ [lab]).tail else buf ++ [lab] := by
  simp [observe]

theorem observe_some_snd (N : ℕ) (buf : List String) (lab : String) :
    (observe N buf (some lab)).2 = true ↔
      ((observe N buf (some lab)).1.length = N ∧
        ∀ s ∈ (observe N buf (some lab)).1, s = lab) := by
  simp [observe]

theorem iterate_observe_buffer (N : ℕ) (lab : String) :
    ∀ k : ℕ, k ≤ N → (iterate_observe N lab k).1 = List.replicate k lab
  | 0, _ => rfl
  | k + 1, hk => by
      have ih := iterate_observe_buffer N lab k (by omega)
      unfold iterate_observe
      rw [ih, observe_some_fst, if_neg (by simp; omega),
        ← List.replicate_succ']

theorem observe_length_le (N : ℕ) (buf : List String) (inp : Option String)
    (h : buf.length ≤ N) : (observe N buf inp).1.length ≤ N := by
  rcases inp with _ | lab
  · simp [observe]
  · rw [observe_some_fst]
    split
    · simpa using h
    · rename_i hcond
      simp only [List.length_append, List.length_singleton]
      omega

theorem runObserve_length_le (N : ℕ) :
    ∀ (inputs : List (Option String)) (buf : List String),
      buf.length ≤ N → (runObserve N buf inputs).length ≤ N
  | [], _, h => h
  | inp :: rest, buf, h => by
      unfold runObserve
      exact runObserve_length_le N rest _ (observe_length_le N buf inp h)

/-- C1. Stability tracking: observing a confident label appends it to
the window, evicting the oldest entry exactly when the appended window
exceeds the capacity; the tracker reports "stable" exactly when the
resulting window has length exactly `stability_frames` and every
element equals the label just appended; and feeding the same label
`k ≤ N` times into an empty window reports stable precisely on the
`N`-th observation. -/
theorem stability_tracking_spec (N : ℕ) (hN : 1 ≤ N) (buf : List String)
    (lab : String) (k : ℕ) (hk : 1 ≤ k) (hkN : k ≤ N) :
    ((observe N buf (some lab)).1 =
      if (buf ++ [lab]).length ≤ N then buf ++ [lab]
      else (buf ++ [lab]).tail) ∧
    ((observe N buf (some lab)).2 = true ↔
      ((observe N buf (some lab)).1.length = N ∧
        ∀ s ∈ (observe N buf (some lab)).1, s = lab)) ∧
    ((iterate_observe N lab k).2 = true ↔ k = N) := by
  refine ⟨?_, observe_some_snd N buf lab, ?_⟩
  · rw [observe_some_fst]
    by_cases h : N < buf.length + 1
    · rw [if_pos h, if_neg (by simp; omega)]
    · rw [if_neg h, if_pos (by simp; omega)]
  · obtain ⟨j, rfl⟩ : ∃ j, k = j + 1 := ⟨k - 1, by omega⟩
    have hbuf := iterate_observe_buffer N lab j (by omega)
    unfold iterate_observe
    rw [hbuf, observe_some_snd, observe_some_fst,
      if_neg (by simp; omega)]
    have hall : ∀ s ∈ (List.replicate j lab ++ [lab] : List String),
        s = lab := by
      intro s hs
      rcases List.mem_append.mp hs with h | h
      · exact List.eq_of_mem_replicate h
      · simpa using h
    constructor
    · rintro ⟨hl, -⟩
      simp only [List.length_append, List.length_replicate,
        List.length_singleton] at hl
      omega
    · intro hkN2
      refine ⟨?_, hall⟩
      simp only [List.length_append, List.length_replicate,
        List.length_singleton]
      omega

/-- C1 witness: capacity 3, label fed 3 times from empty, stable on the
third observation. -/
theorem stability_tracking_spec_witness :
    ((1 : ℕ) ≤ 3 ∧ (1 : ℕ) ≤ 3 ∧ (3 : ℕ) ≤ 3) ∧
    ((iterate_observe 3 "A" 3).2 = true ↔ 3 = 3) :=
  ⟨⟨by norm_num, by norm_num, by norm_num⟩,
    (stability_tracking_spec 3 (by norm_num) [] "A" 3 (by norm_num)
      (by norm_num)).2.2⟩

/-- C2. Announcement gate: `should_announce` returns `true` and updates
the state to `(label, now)` exactly when the label differs from the
last announced one, or it is the same and strictly more than the
cooldown has elapsed; in every other case it returns `false` and leaves
the state unchanged. -/
theorem announcement_gate_spec (cooldown_seconds : ℚ) (lab : String)
    (now : ℚ) (st : AnnouncementState) :
    (should_announce cooldown_seconds lab now st =
        (true, ⟨some lab, now⟩) ↔
      (some lab ≠ st.last_announced_sign ∨
        (st.last_announced_sign = some lab ∧
          cooldown_seconds < now - st.last_announcement_time))) ∧
    (¬ (some lab ≠ st.last_announced_sign ∨
        (st.last_announced_sign = some lab ∧
          cooldown_seconds < now - st.last_announcement_time)) →
      should_announce cooldown_seconds lab now st = (false, st)) := by
  unfold should_announce
  by_cases hl : some lab = st.last_announced_sign
  · by_cases ht : cooldown_seconds < now - st.last_announcement_time
    · rw [if_pos (Or.inr ht)]
      constructor
      · exact ⟨fun _ => Or.inr ⟨hl.symm, ht⟩, fun _ => rfl⟩
      · intro h
        exact absurd (Or.inr ⟨hl.symm, ht⟩) h
    · rw [if_neg (not_or.mpr ⟨not_not_intro hl, ht⟩)]
      constructor
      · constructor
        · intro heq
          simp at heq
        · rintro (hne | ⟨-, ht'⟩)
          · exact absurd hl hne
          · exact absurd ht' ht
      · intro _
        rfl
  · rw [if_pos (Or.inl hl)]
    constructor
    · exact ⟨fun _ => Or.inl hl, fun _ => rfl⟩
    · intro h
      exact absurd (Or.inl hl) h

/-- C2 witness: same label, cooldown 3 elapsed (10 - 0 > 3), fires and
updates the state. -/
theorem announcement_gate_spec_witness :
    should_announce 3 "A" 10 ⟨some "A", 0⟩ = (true, ⟨some "A", 10⟩) :=
  (announcement_gate_spec 3 "A" 10 ⟨some "A", 0⟩).1.mpr
    (Or.inr ⟨rfl, by norm_num⟩)

/-- C4. A frame with no hand detected, or whose top confidence is
strictly below the threshold, leaves the stability window empty
(whatever it held before) and emits no announcement. -/
theorem window_cleared_on_disqualified (confidence_threshold : ℚ)
    (stability_frames : ℕ) (cooldown_seconds : ℚ) (st : PipelineState)
    (pred : Option (String × ℚ)) (now : ℚ)
    (h : pred = none ∨ ∃ lab conf, pred = some (lab, conf) ∧
      conf < confidence_threshold) :
    (processFrame confidence_threshold stability_frames cooldown_seconds
      st pred now).1.stability_buffer = [] ∧
    (processFrame confidence_threshold stability_frames cooldown_seconds
      st pred now).2 = none := by
  rcases h with rfl | ⟨lab, conf, rfl, hconf⟩
  · exact ⟨rfl, rfl⟩
  · simp only [processFrame]
    rw [if_neg (not_le.mpr hconf)]
    exact ⟨rfl, rfl⟩

/-- C4 witness: confidence 0.65 below threshold 0.7 clears a partially
filled window and emits nothing. -/
theorem window_cleared_on_disqualified_witness :
    ((13/20 : ℚ) < 7/10) ∧
    (processFrame (7/10) 3 2 ⟨["Hello", "Hello"], none, 0⟩
      (some ("Hello", 13/20)) 1).1.stability_buffer = [] ∧
    (processFrame (7/10) 3 2 ⟨["Hello", "Hello"], none, 0⟩
      (some ("Hello", 13/20)) 1).2 = none :=
  ⟨by norm_num,
    window_cleared_on_disqualified (7/10) 3 2 ⟨["Hello", "Hello"], none, 0⟩
      (some ("Hello", 13/20)) 1
      (Or.inr ⟨"Hello", 13/20, rfl, by norm_num⟩)⟩

/-- C6. Whenever a frame emits an announcement, the stability window is
empty immediately afterwards: every announcement starts a fresh
stability window. -/
theorem fresh_window_after_announcement (confidence_threshold : ℚ)
    (stability_frames : ℕ) (cooldown_seconds : ℚ) (st : PipelineState)
    (pred : Option (String × ℚ)) (now : ℚ) (ev : String × ℚ)
    (h : (processFrame confidence_threshold stability_frames
      cooldown_seconds st pred now).2 = some ev) :
    (processFrame confidence_threshold stability_frames cooldown_seconds
      st pred now).1.stability_buffer = [] := by
  rcases pred with _ | ⟨lab, conf⟩
  · simp [processFrame] at h
  · by_cases hc : confidence_threshold ≤ conf
    · by_cases hs : (observe stability_frames st.stability_buffer
          (some lab)).2 = true
      · by_cases hg : (should_announce cooldown_seconds lab now
            ⟨st.last_announced_sign, st.last_announcement_time⟩).1 = true
        · simp [processFrame, hc, hs, hg]
        · simp [processFrame, hc, hs, hg] at h
      · simp [processFrame, hc, hs] at h
    · simp [processFrame, hc] at h

/-- C6 witness: a frame that completes a stable run and fires leaves an
empty window. -/
theorem fresh_window_after_announcement_witness :
    (processFrame (7/10) 3 2 ⟨["A", "A"], none, 0⟩ (some ("A", 9/10))
        1).2 = some ("A", 9/10) ∧
    (processFrame (7/10) 3 2 ⟨["A", "A"], none, 0⟩ (some ("A", 9/10))
        1).1.stability_buffer = [] := by
  have h : (processFrame (7/10) 3 2 ⟨["A", "A"], none, 0⟩
      (some ("A", 9/10)) 1).2 = some ("A", 9/10) := by
    norm_num [processFrame, observe, should_announce, Option.some_ne_none,
      Option.some.injEq]
  exact ⟨h, fresh_window_after_announcement (7/10) 3 2 _ _ 1 ("A", 9/10) h⟩

/-- C7. Bounded FIFO window: every state reachable from the empty
window has length at most the capacity, an append at capacity evicts
exactly the oldest element (the new window is the old one minus its
head, plus the new label at the back), and an append below capacity
evicts nothing. -/
theorem bounded_fifo_window (N : ℕ) (inputs : List (Option String)) :
    (runObserve N [] inputs).length ≤ N ∧
    (∀ (buf : List String) (lab : String), 1 ≤ N → buf.length = N →
      (observe N buf (some lab)).1 = buf.drop 1 ++ [lab]) ∧
    (∀ (buf : List String) (lab : String), buf.length < N →
      (observe N buf (some lab)).1 = buf ++ [lab]) := by
  refine ⟨runObserve_length_le N inputs [] (by simp), ?_, ?_⟩
  · intro buf lab hN hlen
    rw [observe_some_fst, if_pos (by omega)]
    rcases buf with _ | ⟨b, bs⟩
    · rw [List.length_nil] at hlen
      omega
    · simp
  · intro buf lab hlt
    rw [observe_some_fst, if_neg (by omega)]

/-- C7 witness: capacity 2, three observations stay within bound; an
append at capacity drops the oldest label. -/
theorem bounded_fifo_window_witness :
    (runObserve 2 [] [some "A", some "B", some "A"]).length ≤ 2 ∧
    (observe 2 ["A", "B"] (some "C")).1 = ["B", "C"] := by
  refine ⟨(bounded_fifo_window 2 [some "A", some "B", some "A"]).1, ?_⟩
  have h := (bounded_fifo_window 2 []).2.1 ["A", "B"] "C" (by norm_num)
    (by norm_num)
  simpa using h

/-- C5. End-to-end scenario with threshold 0.7, 3 stability frames and
a 2-second cooldown: three confident `"Hello"` frames at `t = 0, 0.1,
0.2` produce exactly one announcement at `t = 0.2` and leave the window
empty; the re-stabilized window at `t = 0.5` is suppressed by the
cooldown; a fresh stable run completing at `t = 2.3` announces again.
Over the whole frame sequence exactly the two events at `t = 0.2` and
`t = 2.3` are emitted. -/
theorem end_to_end_scenario :
    (runPipeline (7/10) 3 2 initialState scenarioFrames).2 =
      [("Hello", 9/10, 2/10), ("Hello", 9/10, 23/10)] ∧
    (runPipeline (7/10) 3 2 initialState
      (scenarioFrames.take 3)).1.stability_buffer = [] ∧
    (runPipeline (7/10) 3 2 initialState (scenarioFrames.take 6)).2 =
      [("Hello", 9/10, 2/10)] := by
  have h0 : processFrame (7/10) 3 2 initialState (some ("Hello", 9/10))
      0 = (⟨["Hello"], none, 0⟩, none) := by
    norm_num [processFrame, observe, initialState]
  have h1 : processFrame (7/10) 3 2 (⟨["Hello"], none, 0⟩ : PipelineState)
      (some ("Hello", 9/10)) (1/10) =
      (⟨["Hello", "Hello"], none, 0⟩, none) := by
    norm_num [processFrame, observe]
  have h2 : processFrame (7/10) 3 2
      (⟨["Hello", "Hello"], none, 0⟩ : PipelineState)
      (some ("Hello", 9/10)) (2/10) =
      (⟨[], some "Hello", 2/10⟩, some ("Hello", 9/10)) := by
    norm_num [processFrame, observe, should_announce, Option.some_ne_none,
      Option.some.injEq]
  have h3 : processFrame (7/10) 3 2
      (⟨[], some "Hello", 2/10⟩ : PipelineState)
      (some ("Hello", 9/10)) (3/10) =
      (⟨["Hello"], some "Hello", 2/10⟩, none) := by
    norm_num [processFrame, observe]
  have h4 : processFrame (7/10) 3 2
      (⟨["Hello"], some "Hello", 2/10⟩ : PipelineState)
      (some ("Hello", 9/10)) (4/10) =
      (⟨["Hello", "Hello"], some "Hello", 2/10⟩, none) := by
    norm_num [processFrame, observe]
  have h5 : processFrame (7/10) 3 2
      (⟨["Hello", "Hello"], some "Hello", 2/10⟩ : PipelineState)
      (some ("Hello", 9/10)) (5/10) =
      (⟨["Hello", "Hello", "Hello"], some "Hello", 2/10⟩, none) := by
    norm_num [processFrame, observe, should_announce, Option.some_ne_none,
      Option.some.injEq]
  have h6 : processFrame (7/10) 3 2
      (⟨["Hello", "Hello", "Hello"], some "Hello", 2/10⟩ : PipelineState)
      none (6/10) = (⟨[], some "Hello", 2/10⟩, none) := rfl
  have h7 : processFrame (7/10) 3 2
      (⟨[], some "Hello", 2/10⟩ : PipelineState)
      (some ("Hello", 9/10)) (21/10) =
      (⟨["Hello"], some "Hello", 2/10⟩, none) := by
    norm_num [processFrame, observe]
  have h8 : processFrame (7/10) 3 2
      (⟨["Hello"], some "Hello", 2/10⟩ : PipelineState)
      (some ("Hello", 9/10)) (22/10) =
      (⟨["Hello", "Hello"], some "Hello", 2/10⟩, none) := by
    norm_num [processFrame, observe]
  have h9 : processFrame (7/10) 3 2
      (⟨["Hello", "Hello"], some "Hello", 2/10⟩ : PipelineState)
      (some ("Hello", 9/10)) (23/10) =
      (⟨[], some "Hello", 23/10⟩, some ("Hello", 9/10)) := by
    norm_num [processFrame, observe, should_announce, Option.some_ne_none,
      Option.some.injEq]
  refine ⟨?_, ?_, ?_⟩
  · simp only [scenarioFrames, runPipeline, h0, h1, h2, h3, h4, h5, h6,
      h7, h8, h9]
    simp
  · simp only [scenarioFrames, List.take, runPipeline, h0, h1, h2]
  · simp only [scenarioFrames, List.take, runPipeline, h0, h1, h2, h3,
      h4, h5]
    simp

end SmartGlasses
